import Mathlib

/-!
Shallow embedding of the mwmbl ranker (`src/lib.rs`).

Strings are modelled as `List Char` (Rust `&str` is UTF-8; byte lengths are the
sums of the characters' UTF-8 sizes, and slicing at character boundaries is
list-of-characters truncation, so truncation can never split a character).
Floating-point values (`f32`/`f64`) are modelled as real numbers; `u8` counters
are modelled as `Nat` with the explicit saturation `min _ 255` mirroring
`u8::try_from(_).unwrap_or(u8::MAX)`.

The `regex` and `url` crates are external dependencies of the repository; they
are modelled here only to the extent the ranker exercises them, and each model
definition documents its scope:
* the query pattern is the word-boundary-anchored alternation
  `\b t1 \b | \b t2 \b | ...` of the regex-escaped unique query terms; an
  escaped literal matches exactly the original token, so the pattern is carried
  as the list of unique tokens and matching is literal matching guarded by
  word boundaries, with the regex crate's leftmost-first non-overlapping
  `find_iter` scan;
* URL parsing is a model of the `url` crate (WHATWG) restricted to the pieces
  the ranker reads: scheme detection, host extraction (domain vs IPv4, with
  the crate's ASCII lower-casing of domains), and path extraction.
Character classes (`\b` word characters, lower-casing) are modelled at ASCII
fidelity; all concrete inputs used below are ASCII.
-/

/-- Byte length of a string modelled as a character list (UTF-8). -/
def byteLen (s : List Char) : Nat := (s.map Char.utf8Size).sum

/-- Source constant `MAX_URL_LENGTH`. -/
def MAX_URL_LENGTH : Nat := 200

/-- Source constant `MAX_TITLE_LENGTH`. -/
def MAX_TITLE_LENGTH : Nat := 100

/-- Source constant `MAX_EXTRACT_LENGTH`. -/
def MAX_EXTRACT_LENGTH : Nat := 200

/-- Source constant `MATCH_EXPONENT` (`2.0`). -/
def MATCH_EXPONENT : ℝ := 2

/-- Source constant `MISSING_URL`. -/
def MISSING_URL : List Char := "https://_.com".data

/-- Source `shorten_string`: keep the longest prefix that ends on a character
boundary and whose byte length does not exceed `max_length`.  The source starts
at byte position `max_length` and walks back to the previous character
boundary; on a character list that is exactly the greedy prefix below. -/
def shorten_string : List Char → Nat → List Char
  | [], _ => []
  | c :: cs, max_length =>
    if c.utf8Size ≤ max_length then c :: shorten_string cs (max_length - c.utf8Size)
    else []

/-- Source struct `SearchResult` (the three `ArrayString` fields, holding the
already-truncated strings). -/
structure SearchResult where
  url : List Char
  title : List Char
  extract : List Char
deriving DecidableEq

/-- Source `SearchResult::new`: truncate each field to its bound.  The
`ArrayString::from(..).unwrap()` calls succeed because `shorten_string`
keeps the byte length within the capacity (see `byteLen_shorten_le`). -/
def SearchResult.new (url title extract : List Char) : SearchResult :=
  { url := shorten_string url MAX_URL_LENGTH
    title := shorten_string title MAX_TITLE_LENGTH
    extract := shorten_string extract MAX_EXTRACT_LENGTH }

/-- Saturating conversion to `u8` range: `u8::try_from(x).unwrap_or(u8::MAX)`. -/
def u8_clamp (x : Nat) : Nat := min x 255

/-- Rust `str::split_whitespace`, accumulator form. -/
def split_whitespace_aux : List Char → List Char → List (List Char)
  | [], acc => if acc.isEmpty then [] else [acc.reverse]
  | c :: cs, acc =>
    if c.isWhitespace then
      if acc.isEmpty then split_whitespace_aux cs []
      else acc.reverse :: split_whitespace_aux cs []
    else split_whitespace_aux cs (c :: acc)

/-- Rust `str::split_whitespace`: whitespace-delimited tokens, empties dropped. -/
def split_whitespace (s : List Char) : List (List Char) :=
  split_whitespace_aux s []

/-- Meta characters escaped by `regex::escape`. -/
def isMetaChar (c : Char) : Bool :=
  "\\.+*?()|[]\x7b\x7d^$#&-~".data.contains c

/-- One character of `regex::escape` output. -/
def escapeChar (c : Char) : List Char :=
  if isMetaChar c then ['\\', c] else [c]

/-- Model of `regex::escape`: backslash-escape every meta character.  The
escaped string, used as a regex, matches exactly the original literal. -/
def regexEscape : List Char → List Char
  | [] => []
  | c :: cs => escapeChar c ++ regexEscape cs

/-- Byte length of the `regex::escape`d form of a token; the source sums these
lengths into `total_possible_match_length`. -/
def escapedByteLen (t : List Char) : Nat := byteLen (regexEscape t)

/-- The deduplicated query tokens (`unique_query_terms` in `get_query_regex`).
The source deduplicates the *escaped* tokens in a `HashSet`; escaping is
injective, so this equals deduplicating the raw tokens.  A `HashSet` iterates
in an unspecified order; the model fixes one order (`List.dedup`), and no
theorem below depends on the order of the alternation. -/
def uniqueTerms (query : List Char) : List (List Char) :=
  (split_whitespace query).dedup

/-- Sum of the escaped byte lengths of the unique terms (`term_length_sum`). -/
def termLengthSum (query : List Char) : Nat :=
  ((uniqueTerms query).map escapedByteLen).sum

/-- The compiled query pattern `\b t1 \b | \b t2 \b | ...`, carried as the list
of unique raw tokens of the alternation (see the module docstring). -/
structure QueryRegex where
  terms : List (List Char)
deriving DecidableEq

/-- Model of `Regex::new` on the pattern built by `get_query_regex`.  That
pattern is a `\b`-anchored alternation of escaped literals and is always
syntactically valid (even for zero terms, where it degenerates to `\b\b`), so
compilation always succeeds and the `.unwrap()` in the source never panics. -/
def Regex.compile (terms : List (List Char)) : Option QueryRegex :=
  some { terms := terms }

/-- Source `get_query_regex`: the compiled pattern, the unique-term count and
the summed escaped term length, both saturated to `u8`.  The `Option` carries
the possible panic of the `Regex::new(..).unwrap()` call. -/
def get_query_regex (query : List Char) : Option (QueryRegex × Nat × Nat) :=
  (Regex.compile (uniqueTerms query)).map fun re =>
    (re, u8_clamp (uniqueTerms query).length, u8_clamp (termLengthSum query))

/-- Source struct `Ranker`. -/
structure Ranker where
  query : List Char
  total_possible_match_length : Nat
  num_unique_terms : Nat
  query_regex : QueryRegex
  search_results : List SearchResult

/-- The ranker `Ranker::new(query)` constructs (its field values spelled out). -/
def mkRanker (query : List Char) : Ranker :=
  { query := query
    total_possible_match_length := u8_clamp (termLengthSum query)
    num_unique_terms := u8_clamp (uniqueTerms query).length
    query_regex := { terms := uniqueTerms query }
    search_results := [] }

/-- Source `Ranker::new`. -/
def Ranker.new (query : List Char) : Option Ranker :=
  (get_query_regex query).map fun x =>
    { query := query
      total_possible_match_length := x.2.2
      num_unique_terms := x.2.1
      query_regex := x.1
      search_results := [] }

/-- Source `Ranker::add_search_result`. -/
def Ranker.add_search_result (r : Ranker) (url title extract : List Char) : Ranker :=
  { r with search_results := r.search_results ++ [SearchResult.new url title extract] }

/-- Source `Ranker::len`. -/
def Ranker.len (r : Ranker) : Nat := r.search_results.length

/-- Rust regex `\b` word characters, at ASCII fidelity. -/
def wordChar (c : Char) : Bool := c.isAlphanum || c == '_'

/-- Whether `c` (an optional character, `none` at the ends of the text) counts
as a word character for `\b`. -/
def optWordChar : Option Char → Bool
  | none => false
  | some c => wordChar c

/-- Word boundary between two adjacent (optional) characters. -/
def boundary (a b : Option Char) : Bool := optWordChar a != optWordChar b

/-- Whether the alternative `t` of the pattern matches at the current position:
`rest` is the remaining text and `prev` the character just before it.  The
escaped literal matches exactly the token `t`, guarded by `\b` on both sides.
Alternatives are whitespace-split tokens and hence never empty; the
`!t.isEmpty` guard records that (the degenerate zero-term pattern `\b\b`,
which can match the empty string, is outside this model's scope). -/
def matchesHere (prev : Option Char) (rest t : List Char) : Bool :=
  !t.isEmpty && t.isPrefixOf rest && boundary prev t.head?
    && boundary t.getLast? (rest.drop t.length).head?

/-- Leftmost-first choice among the alternation's branches at one position
(the regex crate prefers the earliest alternative that matches here). -/
def matchAt (terms : List (List Char)) (prev : Option Char) (rest : List Char) :
    Option (List Char) :=
  terms.find? (matchesHere prev rest)

/-- One scan step of `find_iter`: walk the text left to right; at each position
emit the leftmost-first match if any and continue after it (non-overlapping),
otherwise advance one character.  Offsets are byte offsets, as in Rust.
`fuel` is an upper bound on the remaining scan steps (the caller passes the
text length; every step consumes at least one character). -/
def find_iter_aux (terms : List (List Char)) :
    Nat → Option Char → List Char → Nat → List (Nat × Nat × List Char)
  | 0, _, _, _ => []
  | _ + 1, _, [], _ => []
  | fuel + 1, prev, c :: cs, off =>
    match matchAt terms prev (c :: cs) with
    | some t =>
      (off, off + byteLen t, t) ::
        find_iter_aux terms fuel t.getLast? (cs.drop (t.length - 1)) (off + byteLen t)
    | none => find_iter_aux terms fuel (some c) cs (off + c.utf8Size)

/-- Model of `Regex::find_iter` for the query pattern: the list of
`(start byte, end byte, matched text)` of the non-overlapping matches. -/
def find_iter (terms : List (List Char)) (text : List Char) :
    List (Nat × Nat × List Char) :=
  find_iter_aux terms text.length none text 0

/-- The per-field match loop of `get_features`: fold over the matches keeping
the first occurrence of each distinct matched substring (`seen_terms`),
updating `last_match_char` and `match_length`.  Initial state: `seen = []`,
`last = 1`, `len = 0`. -/
def accumulate_matches :
    List (Nat × Nat × List Char) → List (List Char) → Nat → Nat →
      List (List Char) × Nat × Nat
  | [], seen, last, len => (seen, last, len)
  | (s, e, t) :: ms, seen, last, len =>
    if t ∈ seen then accumulate_matches ms seen last len
    else accumulate_matches ms (t :: seen) e (len + (e - s))

/-- Source struct `MatchFeatures`. -/
structure MatchFeatures where
  last_char : Nat
  length : Nat
  total_possible_length : Nat
  num_terms : Nat
  score : ℝ
  term_proportion : ℝ

/-- Source struct `Features`. -/
structure Features where
  title_match : MatchFeatures
  extract_match : MatchFeatures
  domain_match : MatchFeatures
  path_match : MatchFeatures

/-- The body of `get_features` for one field whose (already lower-cased) text
is `text`: scan, deduplicate, saturate to `u8`, and compute
`score = MATCH_EXPONENT ^ (match_length - total_possible_length) / last_match_char`
(on the saturated values, as in the source) and
`term_proportion = num_terms / num_unique_terms`. -/
noncomputable def matchText (terms : List (List Char)) (text : List Char)
    (total_possible_length num_unique_terms : Nat) : MatchFeatures :=
  let acc := accumulate_matches (find_iter terms text) [] 1 0
  let match_length := u8_clamp acc.2.2
  let last_match_char := u8_clamp acc.2.1
  let num_terms := u8_clamp acc.1.length
  { last_char := last_match_char
    length := match_length
    total_possible_length := total_possible_length
    num_terms := num_terms
    score := MATCH_EXPONENT ^ ((match_length : ℝ) - (total_possible_length : ℝ))
      / (last_match_char : ℝ)
    term_proportion := (num_terms : ℝ) / (num_unique_terms : ℝ) }

/-- One iteration of the field loop of `get_features`: the source lower-cases
the field text (`let part_lower = part.to_lowercase()`) for every one of the
four fields, then scans the pattern over it. -/
noncomputable def getMatchFeatures (query_regex : QueryRegex) (part : List Char)
    (total_possible_length num_unique_terms : Nat) : MatchFeatures :=
  matchText query_regex.terms (part.map Char.toLower)
    total_possible_length num_unique_terms

/-- Host of a parsed URL in the `url`-crate model: a domain name or an IPv4
address (other host kinds are outside the model's scope). -/
inductive UrlHost where
  | domain (d : List Char) : UrlHost
  | ipv4 (a b c d : Nat) : UrlHost
deriving DecidableEq

/-- Parsed URL in the `url`-crate model: scheme, optional host, serialized
path. -/
structure ParsedUrl where
  scheme : List Char
  host : Option UrlHost
  path : List Char
deriving DecidableEq

/-- The crate's `Url::domain()`: the host as a string when it is a domain
name, `none` for IP-address hosts and host-less URLs. -/
def ParsedUrl.domain (u : ParsedUrl) : Option (List Char) :=
  match u.host with
  | some (UrlHost.domain d) => some d
  | _ => none

/-- Characters permitted inside a URL scheme after its leading letter. -/
def schemeChar (c : Char) : Bool :=
  c.isAlphanum || c == '+' || c == '-' || c == '.'

/-- Split off `scheme:` from the front of a URL string; `none` when there is
no such prefix (the crate's `RelativeUrlWithoutBase` error). -/
def takeSchemeAux : List Char → List Char → Option (List Char × List Char)
  | _, [] => none
  | acc, c :: cs =>
    if c == ':' then if acc.isEmpty then none else some (acc.reverse, cs)
    else if schemeChar c then takeSchemeAux (c :: acc) cs
    else none

/-- Scheme extraction: a leading ASCII letter, scheme characters, then `:`. -/
def takeScheme (s : List Char) : Option (List Char × List Char) :=
  match s with
  | c :: _ => if c.isAlpha then takeSchemeAux [] s else none
  | [] => none

/-- WHATWG forbidden host code points (the subset the model checks). -/
def forbiddenHostChar (c : Char) : Bool :=
  c == ' ' || c == '#' || c == '/' || c == ':' || c == '<' || c == '>' ||
  c == '?' || c == '@' || c == '[' || c == ']' || c == '^' || c == '|' ||
  c == '\\' || c == '%'

/-- Split a host string on dots. -/
def splitOnDot : List Char → List Char → List (List Char)
  | acc, [] => [acc.reverse]
  | acc, c :: cs =>
    if c == '.' then acc.reverse :: splitOnDot [] cs else splitOnDot (c :: acc) cs

/-- Decimal value of a digit string. -/
def digitsToNat (s : List Char) : Nat :=
  s.foldl (fun n c => 10 * n + (c.toNat - 48)) 0

/-- Whether a label is a nonempty run of ASCII digits. -/
def allDigits (s : List Char) : Bool :=
  !s.isEmpty && s.all Char.isDigit

/-- Host parsing in the `url`-crate model: reject empty hosts and forbidden
code points; a host made of digits and dots must be a valid dotted-quad IPv4
address; anything else is a domain, ASCII lower-cased as the crate does. -/
def parseHost (h : List Char) : Option UrlHost :=
  if h.isEmpty then none
  else if h.any forbiddenHostChar then none
  else if h.all fun c => c.isDigit || c == '.' then
    match splitOnDot [] h with
    | [a, b, c, d] =>
      if allDigits a && allDigits b && allDigits c && allDigits d &&
          digitsToNat a ≤ 255 && digitsToNat b ≤ 255 &&
          digitsToNat c ≤ 255 && digitsToNat d ≤ 255 then
        some (UrlHost.ipv4 (digitsToNat a) (digitsToNat b) (digitsToNat c)
          (digitsToNat d))
      else none
    | _ => none
  else some (UrlHost.domain (h.map Char.toLower))

/-- Model of the `url` crate's `Url::parse`, restricted to what the ranker
reads (see the module docstring).  For the special schemes `http`/`https`:
skip the slashes, take the authority up to `/`, `?` or `#`, drop a `:port`
suffix, parse the host, and take the path up to `?` or `#` (empty path
serializes as `/`).  Other schemes parse as host-less opaque-path URLs.
Userinfo, port validation, percent-encoding and IPv6 hosts are outside the
model's scope; no concrete URL used below involves them. -/
def Url.parse (s : List Char) : Option ParsedUrl :=
  match takeScheme s with
  | none => none
  | some (sch, rest) =>
    let scheme := sch.map Char.toLower
    if scheme = "http".data ∨ scheme = "https".data then
      let rest1 := rest.dropWhile fun c => c == '/'
      let auth := rest1.takeWhile fun c => !(c == '/' || c == '?' || c == '#')
      let after := rest1.drop auth.length
      let hostStr := auth.takeWhile fun c => !(c == ':')
      match parseHost hostStr with
      | none => none
      | some h =>
        let path := after.takeWhile fun c => !(c == '?' || c == '#')
        some { scheme := scheme, host := some h
               path := if path.isEmpty then ['/'] else path }
    else
      some { scheme := scheme, host := none
             path := rest.takeWhile fun c => !(c == '?' || c == '#') }

/-- The parse of the sentinel `MISSING_URL` (`https://_.com`): the underscore
host is a valid (non-IP) domain, so `domain()` yields `"_.com"` and the
serialized path is `/`.  `Url.parse_missing` below checks this is what
`Url.parse MISSING_URL` produces, so using it for the source's
`Url::parse(MISSING_URL).unwrap()` is faithful. -/
def missingParsed : ParsedUrl :=
  { scheme := "https".data
    host := some (UrlHost.domain "_.com".data)
    path := ['/'] }

/-- Source `get_features`: parse the stored URL (substituting the sentinel on
failure), resolve the four field texts (title, extract, domain-or-empty,
path), and run the per-field loop on each.  The source's loop dispatches on
the field-name tag and panics on an unknown tag; the tag set is fixed, so the
loop is unrolled here and the panic branch is unreachable. -/
noncomputable def get_features (query_regex : QueryRegex)
    (search_result : SearchResult)
    (total_possible_length num_unique_terms : Nat) : Features :=
  let parsed_url := (Url.parse search_result.url).getD missingParsed
  let domain := parsed_url.domain.getD []
  let path := parsed_url.path
  { title_match := getMatchFeatures query_regex search_result.title
      total_possible_length num_unique_terms
    extract_match := getMatchFeatures query_regex search_result.extract
      total_possible_length num_unique_terms
    domain_match := getMatchFeatures query_regex domain
      total_possible_length num_unique_terms
    path_match := getMatchFeatures query_regex path
      total_possible_length num_unique_terms }

/-- Source `score_result`:
`match_score = 4*title + extract + 4*domain + 2*path`,
`length_penalty = exp(-0.04 * url byte length)` on the stored (truncated)
URL, final score `match_score * length_penalty / 10`. -/
noncomputable def score_result (query_regex : QueryRegex)
    (search_result : SearchResult)
    (total_possible_length num_unique_terms : Nat) : ℝ :=
  let features := get_features query_regex search_result
    total_possible_length num_unique_terms
  let length_penalty := Real.exp (-(0.04 : ℝ) * (byteLen search_result.url : ℝ))
  let match_score := 4 * features.title_match.score
    + features.extract_match.score
    + 4 * features.domain_match.score
    + 2 * features.path_match.score
  match_score * length_penalty / 10

/-- Stable descending insertion used to model the source's
`sort_by(|a, b| b.1.partial_cmp(&a.1).unwrap())` — a stable sort placing
higher scores first, ties kept in insertion order.  The comparison never
panics because scores are never NaN (see the score bounds below); the model
uses the classical order on `ℝ`. -/
noncomputable def insertDesc (x : SearchResult × ℝ) :
    List (SearchResult × ℝ) → List (SearchResult × ℝ)
  | [] => [x]
  | y :: ys =>
    haveI := Classical.propDecidable (y.2 < x.2)
    if y.2 < x.2 then x :: y :: ys else y :: insertDesc x ys

/-- Stable descending sort by score (see `insertDesc`). -/
noncomputable def sortByScoreDesc : List (SearchResult × ℝ) → List (SearchResult × ℝ)
  | [] => []
  | x :: xs => insertDesc x (sortByScoreDesc xs)

/-- Source `Ranker::rank`: score every accumulated result, sort descending by
score, and serialize the sorted list.  Despite the source comment "Return the
index of each search result in the order of the rank", the value built and
serialized is `Vec<&SearchResult>` — the result records themselves, not
indices; the model returns exactly what is serialized. -/
noncomputable def Ranker.rank (r : Ranker) : List SearchResult :=
  let scored_results := r.search_results.map fun result =>
    (result, score_result r.query_regex result
      r.total_possible_match_length r.num_unique_terms)
  (sortByScoreDesc scored_results).map fun x => x.1

/-- The host-visible session operations (`wasm_bindgen` surface used by the
claims): `add_search_result` takes `&mut self`, `rank` takes `&self`. -/
inductive RankerOp where
  | addResult (url title extract : List Char) : RankerOp
  | rank : RankerOp

/-- One session step: the successor state and the output (if any).  `rank`
borrows the session immutably, so the state it returns is the input state. -/
noncomputable def Ranker.step (r : Ranker) :
    RankerOp → Ranker × Option (List SearchResult)
  | RankerOp.addResult u t e => (r.add_search_result u t e, none)
  | RankerOp.rank => (r, some r.rank)

/-- Variant of `get_features` following the words of the specification for
claim C3 ("domain/path are taken from the parsed URL as-is" — matched without
lower-casing), to be compared against the source-faithful `get_features`. -/
noncomputable def get_features_spec_C3 (query_regex : QueryRegex)
    (search_result : SearchResult)
    (total_possible_length num_unique_terms : Nat) : Features :=
  let parsed_url := (Url.parse search_result.url).getD missingParsed
  let domain := parsed_url.domain.getD []
  let path := parsed_url.path
  { title_match := getMatchFeatures query_regex search_result.title
      total_possible_length num_unique_terms
    extract_match := getMatchFeatures query_regex search_result.extract
      total_possible_length num_unique_terms
    domain_match := matchText query_regex.terms domain
      total_possible_length num_unique_terms
    path_match := matchText query_regex.terms path
      total_possible_length num_unique_terms }

/-! ### Supporting lemmas -/

theorem byteLen_nil : byteLen [] = 0 := rfl

theorem byteLen_cons (c : Char) (cs : List Char) :
    byteLen (c :: cs) = c.utf8Size + byteLen cs := by
  simp [byteLen]

theorem one_le_utf8Size (c : Char) : 1 ≤ c.utf8Size := by
  have h := Char.utf8Size_pos c
  omega

theorem one_le_byteLen {t : List Char} (h : t ≠ []) : 1 ≤ byteLen t := by
  cases t with
  | nil => exact absurd rfl h
  | cons c cs =>
    have := one_le_utf8Size c
    rw [byteLen_cons]
    omega

theorem byteLen_shorten_le (s : List Char) (m : Nat) :
    byteLen (shorten_string s m) ≤ m := by
  induction s generalizing m with
  | nil => simp [shorten_string, byteLen]
  | cons c cs ih =>
    rw [shorten_string]
    split
    · rw [byteLen_cons]
      have := ih (m - c.utf8Size)
      omega
    · simp [byteLen]

theorem shorten_of_byteLen_le {s : List Char} {m : Nat} (h : byteLen s ≤ m) :
    shorten_string s m = s := by
  induction s generalizing m with
  | nil => rfl
  | cons c cs ih =>
    rw [byteLen_cons] at h
    rw [shorten_string, if_pos (by omega)]
    rw [ih (by omega)]

theorem shorten_append_eq (s : List Char) (m : Nat) :
    ∃ rest, shorten_string s m ++ rest = s := by
  induction s generalizing m with
  | nil => exact ⟨[], rfl⟩
  | cons c cs ih =>
    rw [shorten_string]
    split
    · obtain ⟨rest, hrest⟩ := ih (m - c.utf8Size)
      exact ⟨rest, by simp [hrest]⟩
    · exact ⟨c :: cs, rfl⟩

theorem shorten_longest (s : List Char) (m : Nat) :
    ∀ p rest, p ++ rest = s → byteLen p ≤ m →
      p.length ≤ (shorten_string s m).length := by
  induction s generalizing m with
  | nil =>
    intro p rest hp _
    have : p = [] := by
      cases p with
      | nil => rfl
      | cons x xs => simp at hp
    simp [this]
  | cons c cs ih =>
    intro p rest hp hlen
    cases p with
    | nil => simp
    | cons x xs =>
      have hx : x = c := by
        have := congrArg List.head? hp
        simpa using this
      have hxs : xs ++ rest = cs := by
        have := congrArg List.tail hp
        simpa using this
      subst hx
      rw [byteLen_cons] at hlen
      have hc : x.utf8Size ≤ m := by omega
      rw [shorten_string, if_pos hc]
      have := ih (m - x.utf8Size) xs rest hxs (by omega)
      simpa using this

theorem byteLen_append (a b : List Char) :
    byteLen (a ++ b) = byteLen a + byteLen b := by
  simp [byteLen]

theorem utf8Size_le_byteLen_escapeChar (c : Char) :
    c.utf8Size ≤ byteLen (escapeChar c) := by
  unfold escapeChar
  split <;> simp [byteLen]

theorem byteLen_le_escaped (t : List Char) : byteLen t ≤ escapedByteLen t := by
  induction t with
  | nil => simp [escapedByteLen, regexEscape, byteLen]
  | cons c cs ih =>
    unfold escapedByteLen regexEscape
    unfold escapedByteLen at ih
    rw [byteLen_append, byteLen_cons]
    have := utf8Size_le_byteLen_escapeChar c
    omega

theorem matchesHere_ne_nil {prev : Option Char} {rest t : List Char}
    (h : matchesHere prev rest t = true) : t ≠ [] := by
  intro ht
  subst ht
  simp [matchesHere] at h

/-- Every match reported by the scan is one of the pattern's alternatives, is
nonempty, and spans exactly its own byte length. -/
theorem find_iter_aux_mem (terms : List (List Char)) :
    ∀ (fuel : Nat) (prev : Option Char) (text : List Char) (off s e : Nat)
      (t : List Char),
      (s, e, t) ∈ find_iter_aux terms fuel prev text off →
      t ∈ terms ∧ t ≠ [] ∧ e = s + byteLen t := by
  intro fuel
  induction fuel with
  | zero =>
    intro prev text off s e t h
    simp [find_iter_aux] at h
  | succ n ih =>
    intro prev text off s e t h
    cases text with
    | nil => simp [find_iter_aux] at h
    | cons c cs =>
      rw [find_iter_aux] at h
      cases hm : matchAt terms prev (c :: cs) with
      | none =>
        rw [hm] at h
        exact ih _ _ _ _ _ _ h
      | some t0 =>
        rw [hm] at h
        rcases List.mem_cons.mp h with h1 | h1
        · have ht0 : t0 ∈ terms := List.mem_of_find?_eq_some hm
          have hmh : matchesHere prev (c :: cs) t0 = true := List.find?_some hm
          cases h1
          exact ⟨ht0, matchesHere_ne_nil hmh, rfl⟩
        · exact ih _ _ _ _ _ _ h1

/-- Invariant of the per-field fold: the distinct matched substrings form a
duplicate-free sublist of the pattern's alternatives, `last_match_char` stays
at least 1, and `match_length` is bounded by the total byte length of the
distinct matched substrings. -/
theorem accumulate_matches_spec (terms : List (List Char)) :
    ∀ (ms : List (Nat × Nat × List Char)) (seen : List (List Char))
      (last len : Nat),
      (∀ p ∈ ms, p.2.2 ∈ terms ∧ p.2.2 ≠ [] ∧ p.2.1 = p.1 + byteLen p.2.2) →
      seen.Nodup → (∀ x ∈ seen, x ∈ terms) → 1 ≤ last →
      len ≤ (seen.map byteLen).sum →
      (accumulate_matches ms seen last len).1.Nodup ∧
      (∀ x ∈ (accumulate_matches ms seen last len).1, x ∈ terms) ∧
      1 ≤ (accumulate_matches ms seen last len).2.1 ∧
      (accumulate_matches ms seen last len).2.2 ≤
        ((accumulate_matches ms seen last len).1.map byteLen).sum := by
  intro ms
  induction ms with
  | nil =>
    intro seen last len _ h2 h3 h4 h5
    exact ⟨h2, h3, h4, h5⟩
  | cons m ms ih =>
    obtain ⟨s, e, t⟩ := m
    intro seen last len h1 h2 h3 h4 h5
    obtain ⟨htm0, htn0, hte0⟩ := h1 (s, e, t) (List.mem_cons_self _ _)
    have htm : t ∈ terms := htm0
    have htn : t ≠ [] := htn0
    have hte : e = s + byteLen t := hte0
    rw [accumulate_matches]
    by_cases hmem : t ∈ seen
    · rw [if_pos hmem]
      exact ih seen last len (fun p hp => h1 p (List.mem_cons_of_mem _ hp))
        h2 h3 h4 h5
    · rw [if_neg hmem]
      apply ih (t :: seen) e (len + (e - s))
      · exact fun p hp => h1 p (List.mem_cons_of_mem _ hp)
      · exact List.nodup_cons.mpr ⟨hmem, h2⟩
      · intro x hx
        rcases List.mem_cons.mp hx with hx | hx
        · exact hx ▸ htm
        · exact h3 x hx
      · have := one_le_byteLen htn
        omega
      · have hbl := one_le_byteLen htn
        simp only [List.map_cons, List.sum_cons]
        have : e - s = byteLen t := by omega
        omega

theorem sum_byteLen_le_of_nodup_subset {l1 l2 : List (List Char)}
    (h1 : l1.Nodup) (h2 : ∀ x ∈ l1, x ∈ l2) (h3 : l2.Nodup) :
    (l1.map byteLen).sum ≤ (l2.map byteLen).sum := by
  rw [← List.sum_toFinset _ h1, ← List.sum_toFinset _ h3]
  apply Finset.sum_le_sum_of_subset
  intro x hx
  exact List.mem_toFinset.mpr (h2 x (List.mem_toFinset.mp hx))

/-- The raw (pre-saturation) statistics of one field scan: the accumulated
match length never exceeds the summed escaped term length, and the last match
end stays at least 1. -/
theorem raw_stats_bounds (q : List Char) (text : List Char) :
    (accumulate_matches (find_iter (uniqueTerms q) text) [] 1 0).2.2 ≤
        termLengthSum q ∧
      1 ≤ (accumulate_matches (find_iter (uniqueTerms q) text) [] 1 0).2.1 := by
  have hmems : ∀ p ∈ find_iter (uniqueTerms q) text,
      p.2.2 ∈ uniqueTerms q ∧ p.2.2 ≠ [] ∧ p.2.1 = p.1 + byteLen p.2.2 := by
    intro p hp
    obtain ⟨s, e, t⟩ := p
    exact find_iter_aux_mem (uniqueTerms q) _ _ _ _ _ _ _ hp
  have spec := accumulate_matches_spec (uniqueTerms q)
    (find_iter (uniqueTerms q) text) [] 1 0 hmems List.nodup_nil
    (by intro x hx; simp at hx) le_rfl (by simp)
  obtain ⟨hnd, hsub, hlast, hlen⟩ := spec
  refine ⟨le_trans hlen ?_, hlast⟩
  calc ((accumulate_matches (find_iter (uniqueTerms q) text) [] 1 0).1.map
          byteLen).sum
      ≤ ((uniqueTerms q).map byteLen).sum :=
        sum_byteLen_le_of_nodup_subset hnd hsub (List.nodup_dedup _)
    _ ≤ ((uniqueTerms q).map escapedByteLen).sum :=
        List.sum_le_sum fun t _ => byteLen_le_escaped t
    _ = termLengthSum q := rfl

/-- Generic last-match-end bound, for an arbitrary pattern. -/
theorem raw_last_ge_one (terms : List (List Char)) (text : List Char) :
    1 ≤ (accumulate_matches (find_iter terms text) [] 1 0).2.1 := by
  have hmems : ∀ p ∈ find_iter terms text,
      p.2.2 ∈ terms ∧ p.2.2 ≠ [] ∧ p.2.1 = p.1 + byteLen p.2.2 := by
    intro p hp
    obtain ⟨s, e, t⟩ := p
    exact find_iter_aux_mem terms _ _ _ _ _ _ _ hp
  exact (accumulate_matches_spec terms (find_iter terms text) [] 1 0 hmems
    List.nodup_nil (by intro x hx; simp at hx) le_rfl (by simp)).2.2.1

theorem matchText_length_eq (terms : List (List Char)) (text : List Char)
    (tpl num : Nat) :
    (matchText terms text tpl num).length =
      u8_clamp (accumulate_matches (find_iter terms text) [] 1 0).2.2 := rfl

theorem matchText_last_char_eq (terms : List (List Char)) (text : List Char)
    (tpl num : Nat) :
    (matchText terms text tpl num).last_char =
      u8_clamp (accumulate_matches (find_iter terms text) [] 1 0).2.1 := rfl

theorem matchText_num_terms_eq (terms : List (List Char)) (text : List Char)
    (tpl num : Nat) :
    (matchText terms text tpl num).num_terms =
      u8_clamp (accumulate_matches (find_iter terms text) [] 1 0).1.length := rfl

theorem matchText_tpl_eq (terms : List (List Char)) (text : List Char)
    (tpl num : Nat) :
    (matchText terms text tpl num).total_possible_length = tpl := rfl

theorem matchText_score_eq (terms : List (List Char)) (text : List Char)
    (tpl num : Nat) :
    (matchText terms text tpl num).score =
      MATCH_EXPONENT ^
          (((matchText terms text tpl num).length : ℝ) - (tpl : ℝ)) /
        ((matchText terms text tpl num).last_char : ℝ) := rfl

theorem matchText_score_pos (terms : List (List Char)) (text : List Char)
    (tpl num : Nat) : 0 < (matchText terms text tpl num).score := by
  rw [matchText_score_eq]
  apply div_pos
  · exact Real.rpow_pos_of_pos (by norm_num [MATCH_EXPONENT]) _
  · have h := raw_last_ge_one terms text
    rw [matchText_last_char_eq]
    have h1 : 1 ≤ u8_clamp (accumulate_matches (find_iter terms text) [] 1 0).2.1 := by
      unfold u8_clamp
      omega
    exact_mod_cast Nat.lt_of_lt_of_le Nat.zero_lt_one h1

/-- Field score upper bound: with the pattern and saturated total length
coming from the same query, `match_length ≤ total_possible_length`, so the
numerator is at most 1 and the division by `last_match_char ≥ 1` keeps the
score at most 1. -/
theorem matchText_score_le_one (q : List Char) (text : List Char) (num : Nat) :
    (matchText (uniqueTerms q) text (u8_clamp (termLengthSum q)) num).score ≤ 1 := by
  rw [matchText_score_eq]
  have hlen := (raw_stats_bounds q text).1
  have hlast := (raw_stats_bounds q text).2
  have hnum : MATCH_EXPONENT ^
      (((matchText (uniqueTerms q) text (u8_clamp (termLengthSum q)) num).length : ℝ)
        - (u8_clamp (termLengthSum q) : ℝ)) ≤ 1 := by
    apply Real.rpow_le_one_of_one_le_of_nonpos (by norm_num [MATCH_EXPONENT])
    rw [sub_nonpos, matchText_length_eq]
    have : u8_clamp (accumulate_matches (find_iter (uniqueTerms q) text) [] 1 0).2.2 ≤
        u8_clamp (termLengthSum q) := by
      unfold u8_clamp
      omega
    exact_mod_cast this
  have hden : (1 : ℝ) ≤
      ((matchText (uniqueTerms q) text (u8_clamp (termLengthSum q)) num).last_char : ℝ) := by
    rw [matchText_last_char_eq]
    have h1 : 1 ≤ u8_clamp (accumulate_matches (find_iter (uniqueTerms q) text) [] 1 0).2.1 := by
      unfold u8_clamp
      omega
    exact_mod_cast h1
  calc MATCH_EXPONENT ^
        (((matchText (uniqueTerms q) text (u8_clamp (termLengthSum q)) num).length : ℝ)
          - (u8_clamp (termLengthSum q) : ℝ)) /
        ((matchText (uniqueTerms q) text (u8_clamp (termLengthSum q)) num).last_char : ℝ)
      ≤ MATCH_EXPONENT ^
        (((matchText (uniqueTerms q) text (u8_clamp (termLengthSum q)) num).length : ℝ)
          - (u8_clamp (termLengthSum q) : ℝ)) :=
        div_le_self (le_of_lt (Real.rpow_pos_of_pos (by norm_num [MATCH_EXPONENT]) _)) hden
    _ ≤ 1 := hnum

theorem get_features_title_eq (re : QueryRegex) (r : SearchResult)
    (tpl num : Nat) :
    (get_features re r tpl num).title_match =
      getMatchFeatures re r.title tpl num := rfl

theorem get_features_extract_eq (re : QueryRegex) (r : SearchResult)
    (tpl num : Nat) :
    (get_features re r tpl num).extract_match =
      getMatchFeatures re r.extract tpl num := rfl

theorem get_features_domain_eq (re : QueryRegex) (r : SearchResult)
    (tpl num : Nat) :
    (get_features re r tpl num).domain_match =
      getMatchFeatures re
        (((Url.parse r.url).getD missingParsed).domain.getD []) tpl num := rfl

theorem get_features_path_eq (re : QueryRegex) (r : SearchResult)
    (tpl num : Nat) :
    (get_features re r tpl num).path_match =
      getMatchFeatures re ((Url.parse r.url).getD missingParsed).path tpl num := rfl

theorem score_result_eq (re : QueryRegex) (r : SearchResult) (tpl num : Nat) :
    score_result re r tpl num =
      (4 * (get_features re r tpl num).title_match.score
          + (get_features re r tpl num).extract_match.score
          + 4 * (get_features re r tpl num).domain_match.score
          + 2 * (get_features re r tpl num).path_match.score)
        * Real.exp (-(0.04 : ℝ) * (byteLen r.url : ℝ)) / 10 := rfl

/-- Bounds for one field score with query-derived parameters, stated on
`getMatchFeatures` (any field text). -/
theorem gmf_bounds (q : List Char) (part : List Char) (num : Nat) :
    0 < (getMatchFeatures { terms := uniqueTerms q } part
          (u8_clamp (termLengthSum q)) num).score ∧
      (getMatchFeatures { terms := uniqueTerms q } part
          (u8_clamp (termLengthSum q)) num).score ≤ 1 :=
  ⟨matchText_score_pos _ _ _ _, matchText_score_le_one q _ _⟩

/-- The final score of any result, under query-derived parameters, lies in
`(0, 11/10]`: in particular it is a genuine real number bounded well inside
the finite range of `f32`/`f64`. -/
theorem score_result_bounds (q : List Char) (r : SearchResult) (num : Nat) :
    0 < score_result { terms := uniqueTerms q } r (u8_clamp (termLengthSum q)) num ∧
      score_result { terms := uniqueTerms q } r (u8_clamp (termLengthSum q)) num
        ≤ 11 / 10 := by
  have ht := gmf_bounds q r.title num
  have he := gmf_bounds q r.extract num
  have hd := gmf_bounds q
    (((Url.parse r.url).getD missingParsed).domain.getD []) num
  have hp := gmf_bounds q ((Url.parse r.url).getD missingParsed).path num
  have hexp : 0 < Real.exp (-(0.04 : ℝ) * (byteLen r.url : ℝ)) := Real.exp_pos _
  have hexp1 : Real.exp (-(0.04 : ℝ) * (byteLen r.url : ℝ)) ≤ 1 := by
    calc Real.exp (-(0.04 : ℝ) * (byteLen r.url : ℝ))
        ≤ Real.exp 0 := by
          apply Real.exp_le_exp.mpr
          have h0 : (0 : ℝ) ≤ (byteLen r.url : ℝ) := Nat.cast_nonneg _
          nlinarith
      _ = 1 := Real.exp_zero
  rw [score_result_eq, get_features_title_eq,
    get_features_extract_eq, get_features_domain_eq, get_features_path_eq]
  constructor
  · apply div_pos _ (by norm_num)
    apply mul_pos _ hexp
    nlinarith [ht.1, he.1, hd.1, hp.1]
  · have hms : 4 * (getMatchFeatures { terms := uniqueTerms q } r.title
          (u8_clamp (termLengthSum q)) num).score
        + (getMatchFeatures { terms := uniqueTerms q } r.extract
          (u8_clamp (termLengthSum q)) num).score
        + 4 * (getMatchFeatures { terms := uniqueTerms q }
          (((Url.parse r.url).getD missingParsed).domain.getD [])
          (u8_clamp (termLengthSum q)) num).score
        + 2 * (getMatchFeatures { terms := uniqueTerms q }
          ((Url.parse r.url).getD missingParsed).path
          (u8_clamp (termLengthSum q)) num).score ≤ 11 := by
      nlinarith [ht.2, he.2, hd.2, hp.2, ht.1, he.1, hd.1, hp.1]
    have hms0 : 0 < 4 * (getMatchFeatures { terms := uniqueTerms q } r.title
          (u8_clamp (termLengthSum q)) num).score
        + (getMatchFeatures { terms := uniqueTerms q } r.extract
          (u8_clamp (termLengthSum q)) num).score
        + 4 * (getMatchFeatures { terms := uniqueTerms q }
          (((Url.parse r.url).getD missingParsed).domain.getD [])
          (u8_clamp (termLengthSum q)) num).score
        + 2 * (getMatchFeatures { terms := uniqueTerms q }
          ((Url.parse r.url).getD missingParsed).path
          (u8_clamp (termLengthSum q)) num).score := by
      nlinarith [ht.1, he.1, hd.1, hp.1]
    rw [div_le_div_iff₀ (by norm_num) (by norm_num)]
    nlinarith [hms, hms0, hexp, hexp1]

theorem getMatchFeatures_eq (re : QueryRegex) (part : List Char)
    (tpl num : Nat) :
    getMatchFeatures re part tpl num =
      matchText re.terms (part.map Char.toLower) tpl num := rfl

/-- The sentinel URL parses to a URL whose domain is `"_.com"` and whose path
is `/`, so substituting `missingParsed` for the source's
`Url::parse(MISSING_URL).unwrap()` is faithful. -/
theorem Url.parse_missing : Url.parse MISSING_URL = some missingParsed := rfl

/-! ### The claims -/

/-- C1: evaluating `rank()` on a session holding one result shows that it
returns the sorted list of the `SearchResult` records themselves (url, title
and extract — what `serde` serializes from `Vec<&SearchResult>`), not a
sequence of integer insertion indices, despite the source comment "Return
the index of each search result in the order of the rank". -/
theorem C1_rank_returns_result_records :
    (Ranker.new ("url".data)).map
        (fun r => (r.add_search_result ("https://en.wikipedia.org/wiki/URL".data)
          ("URL".data) ("A URL is a reference to a web resource.".data)).rank) =
      some [SearchResult.new ("https://en.wikipedia.org/wiki/URL".data)
        ("URL".data) ("A URL is a reference to a web resource.".data)] := rfl

/-- C2 counterexample: the whitespace-only query `" "` tokenizes to zero
terms, yet `Ranker::new` succeeds and a session is created (the pattern
degenerates to the valid regex `\b\b`), contradicting the claim that query
compilation fails on zero-term queries. -/
theorem C2_counterexample :
    uniqueTerms [' '] = [] ∧ (Ranker.new [' ']).isSome = true :=
  ⟨rfl, rfl⟩

/-- C2 amended: query compilation never fails — for every query string,
including empty and whitespace-only ones, `Ranker::new` succeeds and creates
a session (no rejection of zero-term queries happens anywhere). -/
theorem C2_compile_always_succeeds (query : List Char) :
    Ranker.new query = some (mkRanker query) := rfl

/-- C3 counterexample: with query `wiki` and result URL
`https://example.com/WIKI`, the source lower-cases the path `/WIKI` before
matching, so the path field matches with length 4, whereas matching the path
exactly as taken from the parsed URL (the claimed behavior, embodied by
`get_features_spec_C3`) finds no match (length 0): the claim disagrees
with the code on this input. -/
theorem C3_counterexample :
    (get_features { terms := [['w', 'i', 'k', 'i']] }
        (SearchResult.new ("https://example.com/WIKI".data) [] [])
        4 1).path_match.length = 4 ∧
      (get_features_spec_C3 { terms := [['w', 'i', 'k', 'i']] }
        (SearchResult.new ("https://example.com/WIKI".data) [] [])
        4 1).path_match.length = 0 := by
  constructor
  · decide
  · decide

/-- C3 amended: during feature extraction all four field texts — title,
extract, domain and path — are lower-cased before pattern matching; the
domain and path are taken from the parsed URL and then lower-cased exactly
like title and extract. -/
theorem C3_all_fields_lowercased (re : QueryRegex) (r : SearchResult)
    (tpl num : Nat) :
    get_features re r tpl num =
      { title_match := matchText re.terms (r.title.map Char.toLower) tpl num
        extract_match := matchText re.terms (r.extract.map Char.toLower) tpl num
        domain_match := matchText re.terms
          ((((Url.parse r.url).getD missingParsed).domain.getD []).map
            Char.toLower) tpl num
        path_match := matchText re.terms
          (((Url.parse r.url).getD missingParsed).path.map Char.toLower)
          tpl num } := rfl

/-- C4 counterexample: the URL `not a url` fails to parse and the sentinel is
substituted, but the sentinel's domain is `"_.com"`, not the empty string the
claim asserts: with query `com` the domain field matches with length 3,
while an empty domain field (the claim's prediction, computed on the right)
yields length 0. -/
theorem C4_counterexample :
    Url.parse (SearchResult.new ("not a url".data) [] []).url = none ∧
      (get_features { terms := [['c', 'o', 'm']] }
        (SearchResult.new ("not a url".data) [] []) 3 1).domain_match.length = 3 ∧
      (getMatchFeatures { terms := [['c', 'o', 'm']] } [] 3 1).length = 0 := by
  refine ⟨rfl, ?_, ?_⟩
  · decide
  · decide

/-- C4 amended: when a result's stored url fails to parse, feature extraction
substitutes the fixed sentinel URL `https://_.com`; the domain field text
becomes the sentinel's domain `"_.com"` (not the empty string) and the path
field text becomes the root path `/`; the parse failure is never surfaced
(`get_features` and `score_result` are total) and ranking proceeds
normally. -/
theorem C4_sentinel_substitution (re : QueryRegex) (r : SearchResult)
    (tpl num : Nat) (h : Url.parse r.url = none) :
    (get_features re r tpl num).domain_match =
        getMatchFeatures re ("_.com".data) tpl num ∧
      (get_features re r tpl num).path_match =
        getMatchFeatures re ['/'] tpl num := by
  rw [get_features_domain_eq, get_features_path_eq, h]
  exact ⟨rfl, rfl⟩

theorem C4_sentinel_substitution_witness :
    Url.parse (SearchResult.new ("not a url".data) [] []).url = none ∧
      ((get_features { terms := [['c', 'o', 'm']] }
          (SearchResult.new ("not a url".data) [] []) 3 1).domain_match =
        getMatchFeatures { terms := [['c', 'o', 'm']] } ("_.com".data) 3 1 ∧
      (get_features { terms := [['c', 'o', 'm']] }
          (SearchResult.new ("not a url".data) [] []) 3 1).path_match =
        getMatchFeatures { terms := [['c', 'o', 'm']] } ['/'] 3 1) :=
  ⟨rfl, C4_sentinel_substitution _ _ _ _ rfl⟩

/-- C5: the final relevance score is
`(4*title.score + 1*extract.score + 4*domain.score + 2*path.score) *
exp(-0.04 * url_byte_length) / 10`, where `url_byte_length` is the byte
length of the stored (truncated) url. -/
theorem C5_score_formula (re : QueryRegex) (r : SearchResult) (tpl num : Nat) :
    score_result re r tpl num =
      (4 * (get_features re r tpl num).title_match.score
          + 1 * (get_features re r tpl num).extract_match.score
          + 4 * (get_features re r tpl num).domain_match.score
          + 2 * (get_features re r tpl num).path_match.score)
        * Real.exp (-(0.04 : ℝ) * (byteLen r.url : ℝ)) / 10 := by
  rw [score_result_eq]
  ring

/-- C6: result normalization always succeeds (it is total and the stored
byte lengths fit the `ArrayString` capacities); each stored field equals the
input when its byte length is within the bound, and otherwise is the longest
prefix (a character-list prefix, hence ending on a character boundary and
never splitting a character) whose byte length does not exceed the bound. -/
theorem C6_truncation_contract (url title extract : List Char) :
    byteLen (SearchResult.new url title extract).url ≤ MAX_URL_LENGTH ∧
      byteLen (SearchResult.new url title extract).title ≤ MAX_TITLE_LENGTH ∧
      byteLen (SearchResult.new url title extract).extract ≤ MAX_EXTRACT_LENGTH ∧
      (byteLen url ≤ MAX_URL_LENGTH →
        (SearchResult.new url title extract).url = url) ∧
      (byteLen title ≤ MAX_TITLE_LENGTH →
        (SearchResult.new url title extract).title = title) ∧
      (byteLen extract ≤ MAX_EXTRACT_LENGTH →
        (SearchResult.new url title extract).extract = extract) ∧
      (∃ rest, (SearchResult.new url title extract).url ++ rest = url) ∧
      (∃ rest, (SearchResult.new url title extract).title ++ rest = title) ∧
      (∃ rest, (SearchResult.new url title extract).extract ++ rest = extract) ∧
      (∀ p rest, p ++ rest = url → byteLen p ≤ MAX_URL_LENGTH →
        p.length ≤ (SearchResult.new url title extract).url.length) ∧
      (∀ p rest, p ++ rest = title → byteLen p ≤ MAX_TITLE_LENGTH →
        p.length ≤ (SearchResult.new url title extract).title.length) ∧
      (∀ p rest, p ++ rest = extract → byteLen p ≤ MAX_EXTRACT_LENGTH →
        p.length ≤ (SearchResult.new url title extract).extract.length) :=
  ⟨byteLen_shorten_le url MAX_URL_LENGTH,
    byteLen_shorten_le title MAX_TITLE_LENGTH,
    byteLen_shorten_le extract MAX_EXTRACT_LENGTH,
    fun h => shorten_of_byteLen_le h,
    fun h => shorten_of_byteLen_le h,
    fun h => shorten_of_byteLen_le h,
    shorten_append_eq url MAX_URL_LENGTH,
    shorten_append_eq title MAX_TITLE_LENGTH,
    shorten_append_eq extract MAX_EXTRACT_LENGTH,
    shorten_longest url MAX_URL_LENGTH,
    shorten_longest title MAX_TITLE_LENGTH,
    shorten_longest extract MAX_EXTRACT_LENGTH⟩

theorem C6_truncation_contract_witness :
    byteLen ("abc".data) ≤ MAX_URL_LENGTH ∧
      (SearchResult.new ("abc".data) ("t".data) ("e".data)).url = "abc".data :=
  ⟨by decide,
    (C6_truncation_contract ("abc".data) ("t".data) ("e".data)).2.2.2.1
      (by decide)⟩

/-- C7: for any field text under a non-empty query, the stored
`matched_length`, `last_match_end` and `distinct_term_count` are the raw
statistics saturated at 255 (`min _ 255`, never wrapping); `matched_length`
never exceeds the stored `total_possible_length` (so the score's exponent is
at most 0); and when no term matches the field, `matched_length = 0`,
`last_match_end = 1` and the score is `2 ^ (0 - total_possible_length)`. -/
theorem C7_saturation_and_floor (q part : List Char) (num : Nat)
    (hq : uniqueTerms q ≠ []) :
    (getMatchFeatures { terms := uniqueTerms q } part
        (u8_clamp (termLengthSum q)) num).length =
      min (accumulate_matches
        (find_iter (uniqueTerms q) (part.map Char.toLower)) [] 1 0).2.2 255 ∧
    (getMatchFeatures { terms := uniqueTerms q } part
        (u8_clamp (termLengthSum q)) num).last_char =
      min (accumulate_matches
        (find_iter (uniqueTerms q) (part.map Char.toLower)) [] 1 0).2.1 255 ∧
    (getMatchFeatures { terms := uniqueTerms q } part
        (u8_clamp (termLengthSum q)) num).num_terms =
      min (accumulate_matches
        (find_iter (uniqueTerms q) (part.map Char.toLower)) [] 1 0).1.length 255 ∧
    (getMatchFeatures { terms := uniqueTerms q } part
        (u8_clamp (termLengthSum q)) num).length ≤
      (getMatchFeatures { terms := uniqueTerms q } part
        (u8_clamp (termLengthSum q)) num).total_possible_length ∧
    (find_iter (uniqueTerms q) (part.map Char.toLower) = [] →
      (getMatchFeatures { terms := uniqueTerms q } part
          (u8_clamp (termLengthSum q)) num).length = 0 ∧
        (getMatchFeatures { terms := uniqueTerms q } part
          (u8_clamp (termLengthSum q)) num).last_char = 1 ∧
        (getMatchFeatures { terms := uniqueTerms q } part
          (u8_clamp (termLengthSum q)) num).score =
          MATCH_EXPONENT ^ ((0 : ℝ) -
            ((getMatchFeatures { terms := uniqueTerms q } part
              (u8_clamp (termLengthSum q)) num).total_possible_length : ℝ))) := by
  refine ⟨rfl, rfl, rfl, ?_, ?_⟩
  · have h := (raw_stats_bounds q (part.map Char.toLower)).1
    show u8_clamp (accumulate_matches
        (find_iter (uniqueTerms q) (part.map Char.toLower)) [] 1 0).2.2 ≤
      u8_clamp (termLengthSum q)
    unfold u8_clamp
    omega
  · intro hfi
    have hacc : accumulate_matches
        (find_iter (uniqueTerms q) (part.map Char.toLower)) [] 1 0 =
        ([], 1, 0) := by
      rw [hfi]
      rfl
    refine ⟨?_, ?_, ?_⟩
    · show u8_clamp (accumulate_matches
          (find_iter (uniqueTerms q) (part.map Char.toLower)) [] 1 0).2.2 = 0
      rw [hacc]
      rfl
    · show u8_clamp (accumulate_matches
          (find_iter (uniqueTerms q) (part.map Char.toLower)) [] 1 0).2.1 = 1
      rw [hacc]
      rfl
    · show MATCH_EXPONENT ^
          ((u8_clamp (accumulate_matches
            (find_iter (uniqueTerms q) (part.map Char.toLower)) [] 1 0).2.2 : ℝ) -
            (u8_clamp (termLengthSum q) : ℝ)) /
          (u8_clamp (accumulate_matches
            (find_iter (uniqueTerms q) (part.map Char.toLower)) [] 1 0).2.1 : ℝ) =
        MATCH_EXPONENT ^ ((0 : ℝ) - (u8_clamp (termLengthSum q) : ℝ))
      rw [hacc]
      norm_num [u8_clamp]

theorem C7_saturation_and_floor_witness :
    uniqueTerms ['u', 'r', 'l'] ≠ [] ∧
      ((getMatchFeatures { terms := uniqueTerms ['u', 'r', 'l'] } ['x', 'y', 'z']
          (u8_clamp (termLengthSum ['u', 'r', 'l'])) 1).length =
        min (accumulate_matches
          (find_iter (uniqueTerms ['u', 'r', 'l'])
            (['x', 'y', 'z'].map Char.toLower)) [] 1 0).2.2 255 ∧
      (getMatchFeatures { terms := uniqueTerms ['u', 'r', 'l'] } ['x', 'y', 'z']
          (u8_clamp (termLengthSum ['u', 'r', 'l'])) 1).last_char =
        min (accumulate_matches
          (find_iter (uniqueTerms ['u', 'r', 'l'])
            (['x', 'y', 'z'].map Char.toLower)) [] 1 0).2.1 255 ∧
      (getMatchFeatures { terms := uniqueTerms ['u', 'r', 'l'] } ['x', 'y', 'z']
          (u8_clamp (termLengthSum ['u', 'r', 'l'])) 1).num_terms =
        min (accumulate_matches
          (find_iter (uniqueTerms ['u', 'r', 'l'])
            (['x', 'y', 'z'].map Char.toLower)) [] 1 0).1.length 255 ∧
      (getMatchFeatures { terms := uniqueTerms ['u', 'r', 'l'] } ['x', 'y', 'z']
          (u8_clamp (termLengthSum ['u', 'r', 'l'])) 1).length ≤
        (getMatchFeatures { terms := uniqueTerms ['u', 'r', 'l'] } ['x', 'y', 'z']
          (u8_clamp (termLengthSum ['u', 'r', 'l'])) 1).total_possible_length ∧
      (find_iter (uniqueTerms ['u', 'r', 'l']) (['x', 'y', 'z'].map Char.toLower) = [] →
        (getMatchFeatures { terms := uniqueTerms ['u', 'r', 'l'] } ['x', 'y', 'z']
            (u8_clamp (termLengthSum ['u', 'r', 'l'])) 1).length = 0 ∧
          (getMatchFeatures { terms := uniqueTerms ['u', 'r', 'l'] } ['x', 'y', 'z']
            (u8_clamp (termLengthSum ['u', 'r', 'l'])) 1).last_char = 1 ∧
          (getMatchFeatures { terms := uniqueTerms ['u', 'r', 'l'] } ['x', 'y', 'z']
            (u8_clamp (termLengthSum ['u', 'r', 'l'])) 1).score =
            MATCH_EXPONENT ^ ((0 : ℝ) -
              ((getMatchFeatures { terms := uniqueTerms ['u', 'r', 'l'] } ['x', 'y', 'z']
                (u8_clamp (termLengthSum ['u', 'r', 'l'])) 1).total_possible_length : ℝ)))) :=
  ⟨by decide, C7_saturation_and_floor ['u', 'r', 'l'] ['x', 'y', 'z'] 1 (by decide)⟩

/-- C8: for every session compiled from a query with at least one term, the
score `rank()` computes for any result lies in `(0, 11/10]`: the real-valued
computation is bounded well inside the finite `f32`/`f64` range, so no score
is NaN (or infinite), the `partial_cmp(..).unwrap()` in the sort cannot
panic, and `rank()` completes. -/
theorem C8_scores_never_nan (q : List Char) (R : Ranker) (r : SearchResult)
    (hR : Ranker.new q = some R) (hq : uniqueTerms q ≠ []) :
    0 < score_result R.query_regex r R.total_possible_match_length
        R.num_unique_terms ∧
      score_result R.query_regex r R.total_possible_match_length
        R.num_unique_terms ≤ 11 / 10 := by
  have h2 : some (mkRanker q) = some R := hR
  have hR2 : R = mkRanker q := (Option.some.inj h2).symm
  subst hR2
  exact score_result_bounds q r (mkRanker q).num_unique_terms

theorem C8_scores_never_nan_witness :
    Ranker.new ['u', 'r', 'l'] = some (mkRanker ['u', 'r', 'l']) ∧
      uniqueTerms ['u', 'r', 'l'] ≠ [] ∧
      (0 < score_result (mkRanker ['u', 'r', 'l']).query_regex
          (SearchResult.new [] [] [])
          (mkRanker ['u', 'r', 'l']).total_possible_match_length
          (mkRanker ['u', 'r', 'l']).num_unique_terms ∧
        score_result (mkRanker ['u', 'r', 'l']).query_regex
          (SearchResult.new [] [] [])
          (mkRanker ['u', 'r', 'l']).total_possible_match_length
          (mkRanker ['u', 'r', 'l']).num_unique_terms ≤ 11 / 10) :=
  ⟨rfl, by decide,
    C8_scores_never_nan ['u', 'r', 'l'] (mkRanker ['u', 'r', 'l'])
      (SearchResult.new [] [] []) rfl (by decide)⟩

/-- C9: `rank` borrows the session immutably and is a pure function of the
session state: stepping `rank` leaves the session (query, pattern and result
sequence) unchanged, and a second `rank` step on the unchanged session
produces the identical output. -/
theorem C9_rank_idempotent (r : Ranker) :
    (r.step RankerOp.rank).1 = r ∧
      ((r.step RankerOp.rank).1.step RankerOp.rank).2 =
        (r.step RankerOp.rank).2 :=
  ⟨rfl, rfl⟩

/-- C10: when a result's url parses but its host is not a domain name (so
`Url::domain()` is `none`, e.g. an IP-address host), the domain field text is
the empty string and the domain features take the deterministic no-match
values: matched length 0, last match end 1, distinct term count 0 (and
ranking proceeds normally, all functions being total). -/
theorem C10_ip_host_no_domain_match (re : QueryRegex) (r : SearchResult)
    (tpl num : Nat) (u : ParsedUrl) (h1 : Url.parse r.url = some u)
    (h2 : u.domain = none) :
    (get_features re r tpl num).domain_match.length = 0 ∧
      (get_features re r tpl num).domain_match.last_char = 1 ∧
      (get_features re r tpl num).domain_match.num_terms = 0 := by
  have h3 : ((Url.parse r.url).getD missingParsed).domain.getD [] = [] := by
    rw [h1]
    simp [Option.getD, h2]
  rw [get_features_domain_eq, h3]
  exact ⟨rfl, rfl, rfl⟩

theorem C10_ip_host_no_domain_match_witness :
    Url.parse (SearchResult.new ("http://127.0.0.1/".data) [] []).url =
        some { scheme := "http".data
               host := some (UrlHost.ipv4 127 0 0 1)
               path := ['/'] } ∧
      ParsedUrl.domain { scheme := "http".data
                         host := some (UrlHost.ipv4 127 0 0 1)
                         path := ['/'] } = none ∧
      ((get_features { terms := [['a']] }
          (SearchResult.new ("http://127.0.0.1/".data) [] []) 1 1).domain_match.length = 0 ∧
        (get_features { terms := [['a']] }
          (SearchResult.new ("http://127.0.0.1/".data) [] []) 1 1).domain_match.last_char = 1 ∧
        (get_features { terms := [['a']] }
          (SearchResult.new ("http://127.0.0.1/".data) [] []) 1 1).domain_match.num_terms = 0) :=
  ⟨rfl, rfl,
    C10_ip_host_no_domain_match { terms := [['a']] }
      (SearchResult.new ("http://127.0.0.1/".data) [] []) 1 1
      { scheme := "http".data
        host := some (UrlHost.ipv4 127 0 0 1)
        path := ['/'] } rfl rfl⟩
